import Mathlib

/-!
Verification development for the caching-dev-proxy repository.

The Go sources are shallowly embedded: Go strings become Lean `String`
(byte strings; all concrete inputs here are ASCII, and hashing goes
through an explicit UTF-8 encoder), Go byte slices become `String` /
`List Nat`, Go maps `map[string][]string` become flattened ordered
association lists, the filesystem becomes an explicit association list
from absolute paths to entries, and Go panics are modelled as an
explicit `none` / `panic` constructor so that crashing executions are
distinguishable from error returns.
-/

set_option maxRecDepth 1000000

namespace CDP

/-! ### Byte-level helpers and SHA-256 (crypto/sha256, encoding/hex) -/

/-- UTF-8 encoding of one code point, as Go `[]byte(string)` produces. -/
def utf8Char (n : Nat) : List Nat :=
  if n < 0x80 then [n]
  else if n < 0x800 then [0xC0 + n / 64, 0x80 + n % 64]
  else if n < 0x10000 then [0xE0 + n / 4096, 0x80 + (n / 64) % 64, 0x80 + n % 64]
  else [0xF0 + n / 262144, 0x80 + (n / 4096) % 64, 0x80 + (n / 64) % 64, 0x80 + n % 64]

/-- The bytes of a Lean string under UTF-8, matching Go's `[]byte(s)`. -/
def utf8Bytes (s : String) : List Nat :=
  s.data.foldr (fun c acc => utf8Char c.toNat ++ acc) []

def add32 (a b : Nat) : Nat := (a + b) % 4294967296

def rotr32 (n x : Nat) : Nat := ((x >>> n) ||| (x <<< (32 - n))) % 4294967296

def shaCh (x y z : Nat) : Nat := (x &&& y) ^^^ ((x ^^^ 4294967295) &&& z)

def shaMaj (x y z : Nat) : Nat := (x &&& y) ^^^ (x &&& z) ^^^ (y &&& z)

def bsig0 (x : Nat) : Nat := rotr32 2 x ^^^ rotr32 13 x ^^^ rotr32 22 x

def bsig1 (x : Nat) : Nat := rotr32 6 x ^^^ rotr32 11 x ^^^ rotr32 25 x

def ssig0 (x : Nat) : Nat := rotr32 7 x ^^^ rotr32 18 x ^^^ (x >>> 3)

def ssig1 (x : Nat) : Nat := rotr32 17 x ^^^ rotr32 19 x ^^^ (x >>> 10)

/-- SHA-256 round constants (FIPS 180-4, in decimal). -/
def shaK : List Nat :=
  [1116352408, 1899447441, 3049323471, 3921009573, 961987163, 1508970993,
   2453635748, 2870763221, 3624381080, 310598401, 607225278, 1426881987,
   1925078388, 2162078206, 2614888103, 3248222580, 3835390401, 4022224774,
   264347078, 604807628, 770255983, 1249150122, 1555081692, 1996064986,
   2554220882, 2821834349, 2952996808, 3210313671, 3336571891, 3584528711,
   113926993, 338241895, 666307205, 773529912, 1294757372, 1396182291,
   1695183700, 1986661051, 2177026350, 2456956037, 2730485921, 2820302411,
   3259730800, 3345764771, 3516065817, 3600352804, 4094571909, 275423344,
   430227734, 506948616, 659060556, 883997877, 958139571, 1322822218,
   1537002063, 1747873779, 1955562222, 2024104815, 2227730452, 2361852424,
   2428436474, 2756734187, 3204031479, 3329325298]

/-- SHA-256 initial hash value (FIPS 180-4, in decimal). -/
def shaH0 : List Nat :=
  [1779033703, 3144134277, 1013904242, 2773480762, 1359893119, 2600822924,
   528734635, 1541459225]

/-- Big-endian 32-bit word from four bytes. -/
def word32 (b0 b1 b2 b3 : Nat) : Nat := ((b0 * 256 + b1) * 256 + b2) * 256 + b3

/-- The sixteen 32-bit message words of block `j` of the padded message. -/
def blockWords (p : List Nat) (j : Nat) : List Nat :=
  (List.range 16).map fun i =>
    word32 (p.getD (64 * j + 4 * i) 0) (p.getD (64 * j + 4 * i + 1) 0)
      (p.getD (64 * j + 4 * i + 2) 0) (p.getD (64 * j + 4 * i + 3) 0)

/-- Extend sixteen message words to the 64-entry message schedule. -/
def schedule (w16 : List Nat) : List Nat :=
  (List.range 48).foldl
    (fun ws _ =>
      let n := ws.length
      ws ++ [add32 (add32 (ssig1 (ws.getD (n - 2) 0)) (ws.getD (n - 7) 0))
              (add32 (ssig0 (ws.getD (n - 15) 0)) (ws.getD (n - 16) 0))])
    w16

structure Sha8 where
  a : Nat
  b : Nat
  c : Nat
  d : Nat
  e : Nat
  f : Nat
  g : Nat
  h : Nat

def compressRound (st : Sha8) (kw : Nat × Nat) : Sha8 :=
  let t1 := add32 (add32 (add32 (add32 st.h (bsig1 st.e)) (shaCh st.e st.f st.g)) kw.1) kw.2
  let t2 := add32 (bsig0 st.a) (shaMaj st.a st.b st.c)
  ⟨add32 t1 t2, st.a, st.b, st.c, add32 st.d t1, st.e, st.f, st.g⟩

def compressBlock (hs : List Nat) (w16 : List Nat) : List Nat :=
  let ws := schedule w16
  let st0 : Sha8 := ⟨hs.getD 0 0, hs.getD 1 0, hs.getD 2 0, hs.getD 3 0,
                     hs.getD 4 0, hs.getD 5 0, hs.getD 6 0, hs.getD 7 0⟩
  let st := (shaK.zip ws).foldl compressRound st0
  [add32 (hs.getD 0 0) st.a, add32 (hs.getD 1 0) st.b, add32 (hs.getD 2 0) st.c,
   add32 (hs.getD 3 0) st.d, add32 (hs.getD 4 0) st.e, add32 (hs.getD 5 0) st.f,
   add32 (hs.getD 6 0) st.g, add32 (hs.getD 7 0) st.h]

/-- Big-endian 64-bit length field, as eight bytes. -/
def be64 (n : Nat) : List Nat :=
  [n / 2 ^ 56 % 256, n / 2 ^ 48 % 256, n / 2 ^ 40 % 256, n / 2 ^ 32 % 256,
   n / 2 ^ 24 % 256, n / 2 ^ 16 % 256, n / 2 ^ 8 % 256, n % 256]

/-- SHA-256 of a byte sequence, as 32 bytes (FIPS 180-4). -/
def sha256Bytes (msg : List Nat) : List Nat :=
  let padZeros := (119 - msg.length % 64) % 64
  let padded := msg ++ [0x80] ++ List.replicate padZeros 0 ++ be64 (8 * msg.length)
  let hs := (List.range (padded.length / 64)).foldl
    (fun hs j => compressBlock hs (blockWords padded j)) shaH0
  hs.foldr (fun w acc => [w / 2 ^ 24 % 256, w / 2 ^ 16 % 256, w / 2 ^ 8 % 256, w % 256] ++ acc) []

def hexDigit (n : Nat) : Char := "0123456789abcdef".data.getD n 'x'

/-- Hex encoding of bytes, matching Go's `hex.EncodeToString`. -/
def hexOfBytes (bs : List Nat) : String :=
  ⟨bs.foldr (fun b acc => hexDigit (b / 16) :: hexDigit (b % 16) :: acc) []⟩

/-- Hex-encoded SHA-256 of a string's UTF-8 bytes:
`hex.EncodeToString(sha256.Sum256([]byte(s))[:])` in Go. -/
def hexSha256 (s : String) : String := hexOfBytes (sha256Bytes (utf8Bytes s))

/-- Go slicing `s[:n]` on an ASCII (1-byte-per-char) string. -/
def strTake (s : String) (n : Nat) : String := ⟨s.data.take n⟩

example : hexSha256 "abc" =
    "ba7816bf8f01cfea414140de5dae2223b00361a396177a9cb410ff61f20015ad" := by decide

example : hexSha256 "" =
    "e3b0c44298fc1c149afbf4c8996fb92427ae41e4649b934ca495991b7852b855" := by decide

/-! ### Go `strings` helpers -/

/-- List prefix test, `a` a prefix of `b`. -/
def isPre : List Char → List Char → Bool
  | [], _ => true
  | _ :: _, [] => false
  | a :: as, b :: bs => a == b && isPre as bs

/-- Go `strings.HasPrefix`. -/
def strHasPre (s p : String) : Bool := isPre p.data s.data

/-- Go `strings.HasSuffix`. -/
def strHasSuf (s p : String) : Bool := isPre p.data.reverse s.data.reverse

/-- Go `strings.TrimSuffix`. -/
def strTrimSuf (s p : String) : String :=
  if strHasSuf s p then ⟨s.data.take (s.data.length - p.data.length)⟩ else s

/-- Go `strings.Trim(s, "/")`: strip leading and trailing slash characters. -/
def strTrimSlashes (s : String) : String :=
  ⟨((s.data.dropWhile (· == '/')).reverse.dropWhile (· == '/')).reverse⟩

def asciiLower (c : Char) : Char :=
  if 'A' ≤ c && c ≤ 'Z' then Char.ofNat (c.toNat + 32) else c

/-- Go `strings.EqualFold` (the ASCII fragment of Unicode simple folding,
which is all the proxy's method names exercise). -/
def strEqualFold (a b : String) : Bool := a.data.map asciiLower == b.data.map asciiLower

/-- Go `strings.Split` with a one-character separator. -/
def splitCharAux (sep : Char) : List Char → List Char → List String
  | [], acc => [⟨acc.reverse⟩]
  | c :: cs, acc =>
    if c == sep then ⟨acc.reverse⟩ :: splitCharAux sep cs []
    else splitCharAux sep cs (c :: acc)

def splitChar (sep : Char) (s : String) : List String := splitCharAux sep s.data []

/-- Go `strings.Join`. -/
def joinSep (sep : String) : List String → String
  | [] => ""
  | [x] => x
  | x :: y :: xs => x ++ sep ++ joinSep sep (y :: xs)

/-- Decimal digits of a natural number (enough fuel makes it total). -/
def natDigits : Nat → Nat → List Char → List Char
  | 0, _, acc => acc
  | fuel + 1, n, acc =>
    if n < 10 then Char.ofNat (48 + n) :: acc
    else natDigits fuel (n / 10) (Char.ofNat (48 + n % 10) :: acc)

/-- Go `strconv.Itoa` on naturals. -/
def natToStr (n : Nat) : String := ⟨natDigits (n + 1) n []⟩

def isDigitC (c : Char) : Bool := 48 ≤ c.toNat && c.toNat ≤ 57

/-- Value of a string of decimal digits. -/
def digitsVal (l : List Char) : Nat := l.foldl (fun acc c => acc * 10 + (c.toNat - 48)) 0

/-! ### Go `path` / `path/filepath` -/

/-- Element processing of Go `path.Clean`: `stack` holds output elements in
reverse; `""` and `"."` are dropped, `".."` pops a non-`".."` top, is dropped
at the root of a rooted path, and is kept otherwise. -/
def cleanSegs (rooted : Bool) : List String → List String → List String
  | [], stack => stack.reverse
  | s :: rest, stack =>
    if s = "" || s = "." then cleanSegs rooted rest stack
    else if s = ".." then
      match stack with
      | [] => if rooted then cleanSegs rooted rest [] else cleanSegs rooted rest [".."]
      | t :: ts =>
        if t = ".." then cleanSegs rooted rest (".." :: t :: ts)
        else cleanSegs rooted rest ts
    else cleanSegs rooted rest (s :: stack)

/-- Go `path.Clean` (`filepath.Clean` with the unix separator). -/
def goClean (p : String) : String :=
  let rooted := strHasPre p "/"
  let segs := cleanSegs rooted (splitChar '/' p) []
  if rooted then "/" ++ joinSep "/" segs
  else if segs = [] then "." else joinSep "/" segs

/-- Go `filepath.Join` on unix: drop empty elements, join with `"/"`, Clean. -/
def goJoin (elems : List String) : String :=
  let ne := elems.filter (fun e => e ≠ "")
  if ne = [] then "" else goClean (joinSep "/" ne)

example : goClean "host/../../evil/GET.bin" = "../evil/GET.bin" := by decide
example : goJoin ["/cache", "../evil/GET.bin"] = "/evil/GET.bin" := by decide
example : goClean "" = "." := by decide
example : goClean "/" = "/" := by decide
example : goJoin ["a//b/", "c"] = "a/b/c" := by decide
example : strTrimSuf "example.com:443" ":443" = "example.com" := by decide
example : natToStr 204 = "204" := by decide
example : splitChar '/' "/a//b" = ["", "a", "", "b"] := by decide

/-! ### HTTP requests and cache-key derivation (httpcache `GenerateKey`) -/

/-- Go `http.Header`, flattened to an ordered list of (name, value) pairs; a
map entry `k ↦ [v1, v2]` appears as `(k, v1), (k, v2)` in order. -/
abbrev Headers := List (String × String)

/-- The ordered value list of one header name (Go `header[k]`, an exact map
lookup with no canonicalization). -/
def valuesOf (k : String) (h : Headers) : List String :=
  h.filterMap fun p => if p.1 = k then some p.2 else none

/-- The fields of `*http.Request` the proxy reads: `URL.Scheme`, `URL.Host`,
`URL.Path`, `URL.RawQuery`, `Method`, `Header`, `Body` (`none` for nil). -/
structure Request where
  scheme : String
  host : String
  path : String
  rawQuery : String
  method : String
  headers : Headers
  body : Option String
deriving DecidableEq

/-- The header names `GenerateKey` hashes. -/
def hashedHeaderNames : List String :=
  ["Host", "Accept", "Accept-Encoding", "Accept-Language", "Content-Type"]

/-- The `headersStr` accumulated by `GenerateKey`: for each selected name
present in the header map, `k + ":" + strings.Join(v, ",") + "\n"`. -/
def headersStrOf (h : Headers) : String :=
  hashedHeaderNames.foldl
    (fun acc k =>
      match valuesOf k h with
      | [] => acc
      | vs => acc ++ k ++ ":" ++ joinSep "," vs ++ "\n")
    ""

/-- The filename part of `GenerateKey` (src/unnamed/part_014 lines 27-74):
`METHOD[_q<hash8>][_h<hash8>][_b<hash8>].bin`, each hash the first 8 hex
characters of a SHA-256. -/
def keyFilename (r : Request) : String :=
  let queryHash := strTake (hexSha256 r.rawQuery) 8
  let headersStr := headersStrOf r.headers
  let headersHashStr := strTake (hexSha256 headersStr) 8
  let bodyHashStr :=
    match r.body with
    | none => ""
    | some b => if b.length > 0 then strTake (hexSha256 b) 8 else ""
  r.method
    ++ (if r.rawQuery ≠ "" then "_q" ++ queryHash else "")
    ++ (if headersStr ≠ "" then "_h" ++ headersHashStr else "")
    ++ (if bodyHashStr ≠ "" then "_b" ++ bodyHashStr else "")
    ++ ".bin"

/-- httpcache `GenerateKey` (src/unnamed/part_014 lines 26-79).  The pure
model cannot fail (the Go version errors only if closing the body fails). -/
def generateKey (r : Request) : String :=
  let host := strTrimSuf (strTrimSuf r.host ":80") ":443"
  let pathParts :=
    if r.path ≠ "" && r.path ≠ "/" then [host, strTrimSlashes r.path] else [host]
  goJoin (pathParts ++ [keyFilename r])

example : generateKey ⟨"http", "origin.test", "/foo", "", "GET", [], none⟩ =
    "origin.test/foo/GET.bin" := by decide
example : generateKey ⟨"http", "origin.test:80", "", "", "GET", [], none⟩ =
    "origin.test/GET.bin" := by decide

/-! ### Rule evaluation (`config.MatchesStatusCode`, `ConfigRule.Match`,
`Server.shouldBeCached`) -/

/-- `config.CacheRule` (src/internal/config/config.go lines 65-69). -/
structure CacheRule where
  baseURI : String
  methods : List String
  statusCodes : List String
deriving DecidableEq

/-- The fields of `*http.Response` the proxy reads and stores.  `reason` is
the phrase part of the Go `Status` ("OK" of "200 OK"); `body` is the fully
read body, one character per byte. -/
structure Response where
  statusCode : Nat
  reason : String
  headers : Headers
  body : String
deriving DecidableEq

/-- Go `URL.String()` on the absolute URLs the proxy handles:
`scheme://host/path[?query]`. -/
def urlString (r : Request) : String :=
  r.scheme ++ "://" ++ r.host ++ r.path
    ++ (if r.rawQuery ≠ "" then "?" ++ r.rawQuery else "")

/-- `config.MatchesStatusCode` (src/internal/config/config.go lines 184-199). -/
def matchesStatusCode (statusCode : Nat) (pat : String) : Bool :=
  let statusStr := natToStr statusCode
  if pat == statusStr then true
  else if strHasSuf pat "xx" && pat.data.length == 3 then
    strHasPre statusStr (strTake pat 1)
  else false

/-- `ConfigRule.Match` (src/internal/proxy/rule.go lines 21-54).  The result
is `none` when the Go code evaluates `resp.StatusCode` with `resp == nil`,
a nil-pointer dereference that panics. -/
def ruleMatch (r : CacheRule) (requ : Request) (resp : Option Response) : Option Bool :=
  if !strHasPre (urlString requ) r.baseURI then some false
  else if !(r.methods.any fun m => strEqualFold m requ.method) then some false
  else if r.statusCodes.length > 0 then
    match resp with
    | none => none
    | some resp => some (r.statusCodes.any fun p => matchesStatusCode resp.statusCode p)
  else some true

/-- The first-match loop of `shouldBeCached`: stop at the first rule that
matches; `none` propagates a panic from `ruleMatch`. -/
def anyRuleMatches (rules : List CacheRule) (requ : Request)
    (resp : Option Response) : Option Bool :=
  match rules with
  | [] => some false
  | r :: rest =>
    match ruleMatch r requ resp with
    | none => none
    | some true => some true
    | some false => anyRuleMatches rest requ resp

/-- `Server.shouldBeCached` (src/internal/proxy/cache.go lines 8-22). -/
def shouldBeCachedOpt (mode : String) (rules : List CacheRule) (requ : Request)
    (resp : Option Response) : Option Bool :=
  (anyRuleMatches rules requ resp).map fun matched =>
    if mode == "whitelist" then matched else !matched

/-- `ConfigRule.Match` specialised to a present response, where no panic can
occur (used by the engine model; related to `ruleMatch` below). -/
def ruleMatchB (r : CacheRule) (requ : Request) (resp : Response) : Bool :=
  strHasPre (urlString requ) r.baseURI
    && (r.methods.any fun m => strEqualFold m requ.method)
    && (r.statusCodes.length == 0
        || r.statusCodes.any fun p => matchesStatusCode resp.statusCode p)

/-- `Server.shouldBeCached` specialised to a present response. -/
def shouldBeCachedB (mode : String) (rules : List CacheRule) (requ : Request)
    (resp : Response) : Bool :=
  let matched := rules.any fun r => ruleMatchB r requ resp
  if mode == "whitelist" then matched else !matched

/-! ### Disk byte store (`cache.DiskCache`, src/unnamed/part_012) -/

structure FsEntry where
  mtime : Int
  data : String
deriving DecidableEq

/-- The filesystem fragment the store touches: absolute path ↦ entry. -/
abbrev Fs := List (String × FsEntry)

def fsLookup (p : String) (fs : Fs) : Option FsEntry :=
  match fs with
  | [] => none
  | (q, e) :: rest => if q = p then some e else fsLookup p rest

def fsErase (p : String) (fs : Fs) : Fs := fs.filter fun q => q.1 ≠ p

def fsInsert (p : String) (e : FsEntry) (fs : Fs) : Fs := (p, e) :: fsErase p fs

/-- `DiskCache.Get` (src/unnamed/part_012 lines 26-65).  `now` is the clock
reading, `removeOk` says whether the best-effort delete of an expired file
succeeds.  Result: the Go `([]byte, error)` pair, plus the filesystem after
the call.  Stat errors other than not-exist are not modelled. -/
def diskGet (cacheDir : String) (ttl now : Int) (cacheKey : String)
    (removeOk : Bool) (fs : Fs) : Except String (Option String) × Fs :=
  if cacheKey = "" then (.error "cache path cannot be empty", fs)
  else
    let fullPath := goJoin [cacheDir, cacheKey]
    match fsLookup fullPath fs with
    | none => (.ok none, fs)
    | some e =>
      if ttl ≠ 0 ∧ now - e.mtime > ttl then
        (.ok none, if removeOk then fsErase fullPath fs else fs)
      else
        (.ok (some e.data), fs)

/-- `DiskCache.Set` (src/unnamed/part_012 lines 68-87); directory creation
and write errors are not modelled. -/
def diskSet (cacheDir cacheKey data : String) (now : Int) (fs : Fs) :
    Except String Fs :=
  if cacheKey = "" then .error "cache path cannot be empty"
  else .ok (fsInsert (goJoin [cacheDir, cacheKey]) ⟨now, data⟩ fs)

/-! ### Response codec (httpcache `Serialize` / `Deserialize`,
src/internal/cache/httpcache/serialize.go) -/

def PREFIX : String := "---HTTP-RESPONSE---\n"

/-- One wire line per header pair, `Key: value` followed by CRLF. -/
def headerLines (h : Headers) : String :=
  h.foldr (fun p acc => p.1 ++ ": " ++ p.2 ++ "\r\n" ++ acc) ""

/-- Go `respExcludeHeader`: names `Response.Write` re-derives itself and so
skips when copying the header map to the wire. -/
def excludedNames : List String := ["Content-Length", "Transfer-Encoding", "Trailer"]

/-- `httputil.DumpResponse` / `http.Response.Write`, modelled for the
Content-Length-framed responses the proxy stores: status line, a
Content-Length header derived from the in-memory body, the response's own
header pairs minus `respExcludeHeader`, a blank line, the body.  Go emits
header names in sorted order; the multimap view used by the theorems is
insensitive to that order.  Chunked framing and the bodyless 1xx/204/304
special cases are not modelled. -/
def dumpResponse (r : Response) : String :=
  "HTTP/1.1 " ++ natToStr r.statusCode ++ " " ++ r.reason ++ "\r\n"
    ++ "Content-Length: " ++ natToStr r.body.length ++ "\r\n"
    ++ headerLines (r.headers.filter fun p => !excludedNames.contains p.1)
    ++ "\r\n" ++ r.body

/-- Split at the first LF (net/textproto `readLine`); `none` when no LF
remains (unexpected EOF). -/
def splitAtLF : List Char → Option (List Char × List Char)
  | [] => none
  | c :: cs =>
    if c == '\n' then some ([], cs)
    else (splitAtLF cs).map fun p => (c :: p.1, p.2)

/-- Strip one trailing CR from a line, as textproto does. -/
def dropTrailingCR (l : List Char) : List Char :=
  if l.getLast? == some '\r' then l.dropLast else l

/-- Split at the first colon (header-line key/value separation). -/
def splitAtColon : List Char → Option (List Char × List Char)
  | [] => none
  | c :: cs =>
    if c == ':' then some ([], cs)
    else (splitAtColon cs).map fun p => (c :: p.1, p.2)

/-- Split at the first space (`strings.Cut(line, " ")`). -/
def splitAtSpace : List Char → Option (List Char × List Char)
  | [] => none
  | c :: cs =>
    if c == ' ' then some ([], cs)
    else (splitAtSpace cs).map fun p => (c :: p.1, p.2)

def asciiUpper (c : Char) : Char :=
  if 'a' ≤ c && c ≤ 'z' then Char.ofNat (c.toNat - 32) else c

/-- Go `validHeaderFieldByte`: token characters of RFC 7230. -/
def isTokenChar (c : Char) : Bool :=
  c.isAlpha || c.isDigit
    || ['!', '#', '$', '%', '&', '*', '+', '-', '.', '^', '_', '|', '~'].contains c
    || c.toNat == 39 || c.toNat == 96

/-- Capitalisation pass of `textproto.CanonicalMIMEHeaderKey`. -/
def canonAux : List Char → Bool → List Char
  | [], _ => []
  | c :: cs, up => (if up then asciiUpper c else asciiLower c) :: canonAux cs (c == '-')

/-- `textproto.CanonicalMIMEHeaderKey`: canonicalise only all-token keys. -/
def canonicalKey (s : String) : String :=
  if s.data.all isTokenChar then ⟨canonAux s.data true⟩ else s

def trimLeftSpTab (l : List Char) : List Char :=
  l.dropWhile fun c => c == ' ' || c == '\t'

/-- Header block reader (`textproto.ReadMIMEHeader` as used by
`http.ReadResponse`): lines until the first empty line, each split at its
first colon, the key canonicalised, the value stripped of leading
space/tab.  The fuel argument only forces termination. -/
def parseHeadersAux : Nat → List Char → Headers → Option (Headers × List Char)
  | 0, _, _ => none
  | fuel + 1, cs, acc =>
    match splitAtLF cs with
    | none => none
    | some (line0, rest) =>
      let line := dropTrailingCR line0
      if line == [] then some (acc.reverse, rest)
      else
        match splitAtColon line with
        | none => none
        | some (k, v) =>
          if k == [] then none
          else parseHeadersAux fuel rest ((canonicalKey ⟨k⟩, ⟨trimLeftSpTab v⟩) :: acc)

/-- `http.ReadResponse` on a fully buffered message: status line
(`HTTP/1.x CODE [reason]`, the code exactly three digits), header block,
then the body under Content-Length framing: a single valid Content-Length
takes that many bytes (failing when fewer remain, which Go surfaces when
the body is read); no Content-Length reads to EOF; duplicates or malformed
values are errors. -/
def readResponse (s : String) : Option Response :=
  match splitAtLF s.data with
  | none => none
  | some (line0, rest) =>
    let line := dropTrailingCR line0
    match splitAtSpace line with
    | none => none
    | some (proto, status) =>
      if proto ≠ "HTTP/1.1".data ∧ proto ≠ "HTTP/1.0".data then none
      else
        let codeReason :=
          match splitAtSpace status with
          | none => (status, ([] : List Char))
          | some p => p
        if codeReason.1.length ≠ 3 ∨ ¬ codeReason.1.all isDigitC then none
        else
          match parseHeadersAux (rest.length + 1) rest [] with
          | none => none
          | some (hdrs, body0) =>
            match valuesOf "Content-Length" hdrs with
            | [] => some ⟨digitsVal codeReason.1, ⟨codeReason.2⟩, hdrs, ⟨body0⟩⟩
            | [cl] =>
              if cl = "" then some ⟨digitsVal codeReason.1, ⟨codeReason.2⟩, hdrs, ⟨body0⟩⟩
              else if ¬ cl.data.all isDigitC then none
              else if body0.length < digitsVal cl.data then none
              else some ⟨digitsVal codeReason.1, ⟨codeReason.2⟩, hdrs,
                         ⟨body0.take (digitsVal cl.data)⟩⟩
            | _ :: _ :: _ => none

/-- httpcache `Serialize` (serialize.go lines 14-21). -/
def serialize (r : Response) : String := PREFIX ++ dumpResponse r

/-- Result of a decode.  `panicked` marks a Go panic; it is kept so the
store-level model can represent a crashing decode, though `deserialize`
below never produces it. -/
inductive DeserResult where
  | panicked : DeserResult
  | failed : DeserResult
  | ok : Response → DeserResult
deriving DecidableEq

/-- httpcache `Deserialize` (serialize.go lines 23-35).  Go slices
`b[0:len(PREFIX)]`: slice expressions are bounds-checked against the
slice's capacity, and the only slices `Deserialize` receives come from
`os.ReadFile` (through `DiskCache.Get`), which allocates a zeroed buffer
of capacity at least 512 — so the expression is always in bounds, and a
file shorter than 20 bytes yields its bytes padded with the allocation's
zero bytes.  The model pads with NUL accordingly; since `PREFIX` contains
no NUL, every short input fails the prefix comparison.  A prefix mismatch
or an `http.ReadResponse` failure is an error return. -/
def deserialize (b : String) : DeserResult :=
  let got := b.data.take PREFIX.data.length
    ++ List.replicate (PREFIX.data.length - b.data.length) (Char.ofNat 0)
  if (⟨got⟩ : String) ≠ PREFIX then .failed
  else
    match readResponse ⟨b.data.drop PREFIX.data.length⟩ with
    | none => .failed
    | some r => .ok r

example : deserialize (serialize ⟨200, "OK", [("Content-Type", "text/html")], "hello"⟩) =
    .ok ⟨200, "OK", [("Content-Length", "5"), ("Content-Type", "text/html")], "hello"⟩ := by
  decide

example : deserialize "abc" = .failed := by decide

/-! ### The proxy engine pipeline (src/unnamed/part_002, `setupProxyHandlers`) -/

/-- Go `Header.Get`: first value or `""` (callers pass canonical names). -/
def hGet (k : String) (h : Headers) : String := (valuesOf k h).headD ""

/-- Go `Header.Del`. -/
def hDel (k : String) (h : Headers) : Headers := h.filter fun p => p.1 ≠ k

/-- Go `Header.Set`: replace all values of the name by the one given. -/
def hSet (k v : String) (h : Headers) : Headers := hDel k h ++ [(k, v)]

/-- Observable outcome of one request through the engine: the response to
the client, the cache filesystem afterwards, and the request forwarded
upstream (`none` when the upstream fetch was short-circuited). -/
structure EngineOut where
  resp : Response
  fs : Fs
  sent : Option Request
deriving DecidableEq

/-- httpcache `GetKey` (src/unnamed/part_014 lines 123-137): byte-store get,
then deserialize; a failed decode becomes an error return.  A `panicked`
decode would propagate as `none`, but `deserialize` never produces one, so
this model in fact always returns `some`. -/
def getKeyModel (cacheDir : String) (ttl now : Int) (removeOk : Bool)
    (key : String) (fs : Fs) : Option (Except String (Option Response) × Fs) :=
  match diskGet cacheDir ttl now key removeOk fs with
  | (.error e, fs2) => some (.error e, fs2)
  | (.ok none, fs2) => some (.ok none, fs2)
  | (.ok (some data), fs2) =>
    match deserialize data with
    | .panicked => none
    | .failed => some (.error "failed to deserialize response", fs2)
    | .ok r => some (.ok (some r), fs2)

/-- The upstream leg shared by the miss and cache-error paths of `OnRequest`,
followed by the non-bypass `OnResponse` handler (part_002 lines 180-231):
cache the (unstamped) response when the rules select it and it is not already
a hit — caching errors are logged and dropped — then stamp `X-Cache` with
MISS or DISABLED if the header is still unset. -/
def upstreamLeg (mode : String) (rules : List CacheRule) (cacheDir : String)
    (now : Int) (upstream : Request → Response) (req : Request) (key : String)
    (fs : Fs) : EngineOut :=
  let resp := upstream req
  let isCacheHit := hGet "X-Cache" resp.headers == "HIT"
  let fs2 :=
    if !isCacheHit && shouldBeCachedB mode rules req resp then
      match diskSet cacheDir key (serialize resp) now fs with
      | .ok fs3 => fs3
      | .error _ => fs
    else fs
  let resp2 :=
    if hGet "X-Cache" resp.headers == "" then
      if shouldBeCachedB mode rules req resp then
        { resp with headers := hSet "X-Cache" "MISS" resp.headers }
      else
        { resp with headers := hSet "X-Cache" "DISABLED" resp.headers }
    else resp
  ⟨resp2, fs2, some req⟩

/-- One plain-HTTP request through `OnRequest` and `OnResponse`
(part_002 lines 121-231).  A non-empty `X-Cache-Bypass` header short-circuits
all cache logic: the header is deleted, the request forwarded, the response
stamped BYPASS.  Otherwise the cache key is derived, the store consulted
(hit: stamp HIT and do not contact upstream; miss or cache error: the
upstream leg).  `none` would model a panic propagated from the cache read;
since `deserialize` never panics, the model always returns `some`. -/
def engineStep (mode : String) (rules : List CacheRule) (cacheDir : String)
    (ttl now : Int) (removeOk : Bool) (upstream : Request → Response)
    (req : Request) (fs : Fs) : Option EngineOut :=
  if hGet "X-Cache-Bypass" req.headers ≠ "" then
    let req2 : Request := { req with headers := hDel "X-Cache-Bypass" req.headers }
    let resp := upstream req2
    some ⟨{ resp with headers := hSet "X-Cache" "BYPASS" resp.headers }, fs, some req2⟩
  else
    let key := generateKey req
    match getKeyModel cacheDir ttl now removeOk key fs with
    | none => none
    | some (.error _, fs2) => some (upstreamLeg mode rules cacheDir now upstream req key fs2)
    | some (.ok none, fs2) => some (upstreamLeg mode rules cacheDir now upstream req key fs2)
    | some (.ok (some cresp), fs2) =>
      some ⟨{ cresp with headers := hSet "X-Cache" "HIT" cresp.headers }, fs2, none⟩

/-- The trailing `_h`/`_b` suffix pair of `keyFilename` (the last two
conditional appends of `GenerateKey`'s filename construction). -/
def hbSuffix (r : Request) : String :=
  let headersStr := headersStrOf r.headers
  let headersHashStr := strTake (hexSha256 headersStr) 8
  let bodyHashStr :=
    match r.body with
    | none => ""
    | some b => if b.length > 0 then strTake (hexSha256 b) 8 else ""
  (if headersStr ≠ "" then "_h" ++ headersHashStr else "")
    ++ (if bodyHashStr ≠ "" then "_b" ++ bodyHashStr else "")

/-- Well-formedness of one header pair for the wire reader: a non-empty name
free of LF and colon, and a value free of CR/LF that the reader's
leading-whitespace trim leaves unchanged. -/
def wireHeaderOk (p : String × String) : Prop :=
  p.1.data ≠ [] ∧ '\n' ∉ p.1.data ∧ ':' ∉ p.1.data
    ∧ (∀ c ∈ p.2.data, c ≠ '\r' ∧ c ≠ '\n') ∧ trimLeftSpTab p.2.data = p.2.data

/-- Concrete scenario shared by the witness of claim C2: a warm GET. -/
def reqW2 : Request := ⟨"http", "origin.test", "/foo", "", "GET", [], none⟩

def fsW2 : Fs :=
  [(goJoin ["/cache", generateKey reqW2],
    ⟨0, serialize ⟨200, "OK", [("Content-Type", "text/html")], "hello"⟩⟩)]

def crespW2 : Response :=
  ⟨200, "OK", [("Content-Length", "5"), ("Content-Type", "text/html")], "hello"⟩

end CDP

deriving instance DecidableEq for Except

namespace CDP

/-! ### Claim theorems -/

/-- Claim C3: the claim (a rule with a non-empty status-codes set evaluated
against an absent response is treated as non-matching, and `shouldBeCached`
with no response never crashes) is what the spec demands, but the code
dereferences the nil response: `ConfigRule.Match` reads `resp.StatusCode`
without a nil check, so the evaluation panics (modelled as `none`) instead
of returning `false`.  With a present response the same rule evaluates
normally. -/
theorem claim3_code_evaluation :
    ruleMatch ⟨"", ["GET"], ["200"]⟩ ⟨"http", "example.com", "/", "", "GET", [], none⟩ none
      = none
    ∧ shouldBeCachedOpt "whitelist" [⟨"", ["GET"], ["200"]⟩]
        ⟨"http", "example.com", "/", "", "GET", [], none⟩ none = none
    ∧ ruleMatch ⟨"", ["GET"], ["200"]⟩ ⟨"http", "example.com", "/", "", "GET", [], none⟩
        (some ⟨200, "OK", [], ""⟩) = some true := by decide

/-- Claim C8: `Deserialize` fails with an error — never a crash — on every
input whose initial bytes are not exactly the 20-byte magic prefix,
including inputs shorter than 20 bytes (their capacity-padded prefix read
cannot match the NUL-free prefix), and likewise when the HTTP parse after
a correct prefix fails; the engine treats such a corrupt entry as a miss
and fetches upstream. -/
theorem claim8_corrupt :
    (∀ b : String, b.data.length < PREFIX.data.length → deserialize b = .failed)
    ∧ (∀ b : String,
        (⟨b.data.take PREFIX.data.length
            ++ List.replicate (PREFIX.data.length - b.data.length) (Char.ofNat 0)⟩ : String)
          ≠ PREFIX → deserialize b = .failed)
    ∧ (∀ b : String, readResponse ⟨b.data.drop PREFIX.data.length⟩ = none →
        deserialize b = .failed)
    ∧ deserialize "abc" = .failed
    ∧ deserialize "XXXXXXXXXXXXXXXXXXXXrest" = .failed
    ∧ deserialize (PREFIX ++ "not an http response") = .failed
    ∧ (engineStep "blacklist" [] "/cache" 3600 10 true (fun _ => ⟨200, "OK", [], "hi"⟩)
        ⟨"http", "corrupt.test", "/e", "", "GET", [], none⟩
        [(goJoin ["/cache",
            generateKey ⟨"http", "corrupt.test", "/e", "", "GET", [], none⟩],
          ⟨0, "abc"⟩)]).map
        (fun o => (hGet "X-Cache" o.resp.headers, o.sent.isSome))
      = some ("MISS", true) := by
  refine ⟨?_, ?_, ?_, by decide, by decide, by decide, by decide⟩
  · intro b hlen
    have hcond : (⟨b.data.take PREFIX.data.length
        ++ List.replicate (PREFIX.data.length - b.data.length) (Char.ofNat 0)⟩ : String)
        ≠ PREFIX := by
      intro hcon
      have hdata : b.data.take PREFIX.data.length
          ++ List.replicate (PREFIX.data.length - b.data.length) (Char.ofNat 0)
          = PREFIX.data := congrArg String.data hcon
      obtain ⟨m, hm⟩ : ∃ m, PREFIX.data.length - b.data.length = m + 1 :=
        ⟨PREFIX.data.length - b.data.length - 1, by omega⟩
      rw [hm, List.replicate_succ'] at hdata
      have hlast := congrArg List.getLast? hdata
      rw [← List.append_assoc, List.getLast?_concat] at hlast
      exact absurd hlast (by decide)
    simp only [deserialize]
    rw [if_pos hcond]
  · intro b hne
    simp only [deserialize]
    rw [if_pos hne]
  · intro b hrr
    simp only [deserialize]
    by_cases hpre : (⟨b.data.take PREFIX.data.length
        ++ List.replicate (PREFIX.data.length - b.data.length) (Char.ofNat 0)⟩ : String)
        ≠ PREFIX
    · rw [if_pos hpre]
    · rw [if_neg hpre, hrr]

theorem claim8_corrupt_witness :
    ("abc" : String).data.length < PREFIX.data.length
    ∧ deserialize "abc" = DeserResult.failed :=
  ⟨by decide, claim8_corrupt.1 "abc" (by decide)⟩

/-- Claim C10: neither `GenerateKey` nor the disk store confines `..`
segments: the request path `/../../evil` yields the cache key
`../evil/GET.bin`, whose join with the cache root `/cache` resolves to
`/evil/GET.bin`, outside the root; `Set` writes there and `Get` reads it
back. -/
theorem claim10_traversal :
    generateKey ⟨"http", "example.com", "/../../evil", "", "GET", [], none⟩
      = "../evil/GET.bin"
    ∧ strHasPre "../evil/GET.bin" "../" = true
    ∧ goJoin ["/cache", "../evil/GET.bin"] = "/evil/GET.bin"
    ∧ strHasPre "/evil/GET.bin" "/cache/" = false
    ∧ diskSet "/cache" "../evil/GET.bin" "data" 0 []
        = .ok [("/evil/GET.bin", ⟨0, "data"⟩)]
    ∧ diskGet "/cache" 0 0 "../evil/GET.bin" true [("/evil/GET.bin", ⟨0, "data"⟩)]
        = (.ok (some "data"), [("/evil/GET.bin", ⟨0, "data"⟩)]) := by decide

/-- Claim C1 counterexample: two requests that agree on scheme, host, path,
method and raw query but differ in an `Accept` header receive different
keys (the key also hashes selected headers), and the key of a request with
host `EXAMPLE.com:443` keeps the upper-case host (no lowercasing), only the
port suffix is stripped.  Both refute the claim as stated. -/
theorem claim1_counterexample :
    (⟨"http", "EXAMPLE.com:443", "/foo", "", "GET", [], none⟩ : Request).host
      = (⟨"http", "EXAMPLE.com:443", "/foo", "", "GET", [("Accept", "text/html")], none⟩ : Request).host
    ∧ generateKey ⟨"http", "EXAMPLE.com:443", "/foo", "", "GET", [], none⟩
        ≠ generateKey ⟨"http", "EXAMPLE.com:443", "/foo", "", "GET", [("Accept", "text/html")], none⟩
    ∧ generateKey ⟨"http", "EXAMPLE.com:443", "/foo", "", "GET", [], none⟩
        = "EXAMPLE.com/foo/GET.bin" := by decide

/-- Claim C9 counterexample: a request with an empty query string but a
`Content-Type` header does not get the bare `METHOD.bin` filename — the key
carries a `_h` header-hash suffix. -/
theorem claim9_counterexample :
    (⟨"http", "api.test", "/x", "", "GET", [("Content-Type", "a")], none⟩ : Request).rawQuery = ""
    ∧ keyFilename ⟨"http", "api.test", "/x", "", "GET", [("Content-Type", "a")], none⟩
        = "GET_hea5c1f82.bin"
    ∧ generateKey ⟨"http", "api.test", "/x", "", "GET", [("Content-Type", "a")], none⟩
        ≠ "api.test/x/GET.bin" := by decide

/-- Claim C2 counterexample: a cache hit is served with `X-Cache: HIT` and
without contacting upstream, but carries no `X-Cache-File` header — the
engine of src/unnamed/part_002 never sets one. -/
theorem claim2_counterexample :
    (engineStep "blacklist" [] "/cache" 3600 10 true (fun _ => ⟨502, "Bad Gateway", [], ""⟩)
        ⟨"http", "origin.test", "/foo", "", "GET", [], none⟩
        [(goJoin ["/cache", generateKey ⟨"http", "origin.test", "/foo", "", "GET", [], none⟩],
          ⟨0, serialize ⟨200, "OK", [("Content-Type", "text/html")], "hello"⟩⟩)]).map
      (fun o => (hGet "X-Cache" o.resp.headers, valuesOf "X-Cache-File" o.resp.headers,
                 o.resp.body, o.sent))
      = some ("HIT", [], "hello", none) := by decide

/-- Claim C7 counterexample: round-tripping a response whose header map has
the non-canonical key `x-test` rewrites the key to `X-Test` (so the header
multimap is not preserved); the read-back map also gains a synthesized
`Content-Length` entry. -/
theorem claim7_counterexample :
    deserialize (serialize ⟨200, "OK", [("x-test", "1")], ""⟩)
      = .ok ⟨200, "OK", [("Content-Length", "0"), ("X-Test", "1")], ""⟩
    ∧ valuesOf "x-test" [("Content-Length", "0"), ("X-Test", "1")]
        ≠ valuesOf "x-test" [("x-test", "1")]
    ∧ valuesOf "Content-Length" [("Content-Length", "0"), ("X-Test", "1")]
        ≠ valuesOf "Content-Length" ([("x-test", "1")] : Headers) := by decide

/-! Header-map lemmas used by the engine claims. -/

theorem valuesOf_append (k : String) (a b : Headers) :
    valuesOf k (a ++ b) = valuesOf k a ++ valuesOf k b := by
  simp [valuesOf, List.filterMap_append]

theorem valuesOf_cons (j : String) (p : String × String) (t : Headers) :
    valuesOf j (p :: t) = if p.1 = j then p.2 :: valuesOf j t else valuesOf j t := by
  by_cases hj : p.1 = j <;> simp [valuesOf, hj]

theorem hDel_cons (k : String) (p : String × String) (t : Headers) :
    hDel k (p :: t) = if p.1 = k then hDel k t else p :: hDel k t := by
  by_cases hp : p.1 = k <;> simp [hDel, hp]

theorem valuesOf_hDel_self (k : String) (h : Headers) : valuesOf k (hDel k h) = [] := by
  induction h with
  | nil => rfl
  | cons p t ih =>
    by_cases hp : p.1 = k
    · rw [hDel_cons, if_pos hp]; exact ih
    · rw [hDel_cons, if_neg hp, valuesOf_cons, if_neg hp]; exact ih

theorem valuesOf_hDel_ne (j k : String) (h : Headers) (hne : j ≠ k) :
    valuesOf j (hDel k h) = valuesOf j h := by
  induction h with
  | nil => rfl
  | cons p t ih =>
    by_cases hp : p.1 = k
    · rw [hDel_cons, if_pos hp, valuesOf_cons, if_neg (fun hc : p.1 = j => hne (hc ▸ hp))]
      exact ih
    · rw [hDel_cons, if_neg hp, valuesOf_cons, valuesOf_cons, ih]

theorem hGet_hSet_self (k v : String) (h : Headers) : hGet k (hSet k v h) = v := by
  unfold hGet hSet
  rw [valuesOf_append, valuesOf_hDel_self]
  simp [valuesOf]

theorem valuesOf_hSet_ne (j k v : String) (h : Headers) (hne : j ≠ k) :
    valuesOf j (hSet k v h) = valuesOf j h := by
  unfold hSet
  rw [valuesOf_append, valuesOf_hDel_ne j k h hne]
  simp [valuesOf, Ne.symm hne]

/-- Claim C4: for a present entry, a positive TTL with age beyond it makes
`Get` return a miss and delete best-effort — the result is the same `ok none`
whether the delete succeeds (`rok = true`, entry erased) or fails
(`rok = false`, entry left, failure only logged) — while TTL = 0 means the
entry never expires: `Get` returns its data and deletes nothing, whatever
its age. -/
theorem claim4_ttl (cacheDir : String) (ttl now : Int) (key : String) (fs : Fs)
    (e : FsEntry) (rok : Bool) (hk : key ≠ "")
    (hfs : fsLookup (goJoin [cacheDir, key]) fs = some e) :
    (0 < ttl → now - e.mtime > ttl →
      diskGet cacheDir ttl now key rok fs
        = (.ok none, if rok then fsErase (goJoin [cacheDir, key]) fs else fs))
    ∧ (ttl = 0 → diskGet cacheDir ttl now key rok fs = (.ok (some e.data), fs)) := by
  unfold diskGet
  rw [if_neg hk]
  simp only [hfs]
  constructor
  · intro h1 h2
    rw [if_pos ⟨by omega, h2⟩]
  · intro h0
    rw [if_neg (by simp [h0])]

theorem claim4_ttl_witness :
    diskGet "/c" 3600 99999 "k" false [(goJoin ["/c", "k"], ⟨0, "d"⟩)]
      = (.ok none,
         if false then fsErase (goJoin ["/c", "k"]) [(goJoin ["/c", "k"], ⟨0, "d"⟩)]
         else [(goJoin ["/c", "k"], ⟨0, "d"⟩)])
    ∧ diskGet "/c" 0 99999 "k" false [(goJoin ["/c", "k"], ⟨0, "d"⟩)]
      = (.ok (some "d"), [(goJoin ["/c", "k"], ⟨0, "d"⟩)]) :=
  ⟨(claim4_ttl "/c" 3600 99999 "k" _ ⟨0, "d"⟩ false (by decide) (by decide)).1
      (by decide) (by decide),
   (claim4_ttl "/c" 0 99999 "k" _ ⟨0, "d"⟩ false (by decide) (by decide)).2 rfl⟩

/-- `ConfigRule.Match` with a present response never panics and equals its
boolean form. -/
theorem ruleMatch_some (r : CacheRule) (requ : Request) (resp : Response) :
    ruleMatch r requ (some resp) = some (ruleMatchB r requ resp) := by
  unfold ruleMatch ruleMatchB
  cases hA : strHasPre (urlString requ) r.baseURI <;>
    cases hB : r.methods.any (fun m => strEqualFold m requ.method) <;>
      cases r.statusCodes <;> simp [hA, hB]

theorem anyRuleMatches_some (rules : List CacheRule) (requ : Request) (resp : Response) :
    anyRuleMatches rules requ (some resp)
      = some (rules.any fun r => ruleMatchB r requ resp) := by
  induction rules with
  | nil => rfl
  | cons r rest ih =>
    unfold anyRuleMatches
    rw [ruleMatch_some]
    cases h : ruleMatchB r requ resp <;> simp [h, ih]

/-- Claim C5: rule evaluation is first-match — once the head rule matches,
the remaining rules (whatever their status-codes sets, even ones that would
panic against an absent response) are never consulted — and the mode is then
applied: whitelist (include) returns matched, anything else (blacklist /
exclude) returns its negation; the empty ruleset yields false in whitelist
mode and true in blacklist mode. -/
theorem claim5_rules :
    (∀ (mode : String) (r0 : CacheRule) (rest : List CacheRule) (requ : Request)
        (oresp : Option Response), ruleMatch r0 requ oresp = some true →
          shouldBeCachedOpt mode (r0 :: rest) requ oresp = some (mode == "whitelist"))
    ∧ (∀ (mode : String) (rules : List CacheRule) (requ : Request) (resp : Response),
        shouldBeCachedOpt mode rules requ (some resp)
          = some (if mode == "whitelist" then rules.any fun r => ruleMatchB r requ resp
                  else !(rules.any fun r => ruleMatchB r requ resp)))
    ∧ (∀ (mode : String) (requ : Request) (oresp : Option Response),
        shouldBeCachedOpt mode [] requ oresp = some (!(mode == "whitelist"))) := by
  refine ⟨?_, ?_, ?_⟩
  · intro mode r0 rest requ oresp h
    unfold shouldBeCachedOpt anyRuleMatches
    rw [h]
    cases hm : (mode == "whitelist") <;> simp [hm]
  · intro mode rules requ resp
    unfold shouldBeCachedOpt
    rw [anyRuleMatches_some]
    cases hm : (mode == "whitelist") <;> simp [hm]
  · intro mode requ oresp
    unfold shouldBeCachedOpt anyRuleMatches
    cases hm : (mode == "whitelist") <;> simp [hm]

theorem claim5_rules_witness :
    ruleMatch ⟨"http://origin.test", ["GET"], []⟩
        ⟨"http", "origin.test", "/a", "", "GET", [], none⟩ none = some true
    ∧ shouldBeCachedOpt "whitelist"
        [⟨"http://origin.test", ["GET"], []⟩, ⟨"", ["GET"], ["500"]⟩]
        ⟨"http", "origin.test", "/a", "", "GET", [], none⟩ none
        = some (("whitelist" : String) == "whitelist") :=
  ⟨by decide, claim5_rules.1 "whitelist" _ _ _ none (by decide)⟩

/-- Claim C6: a request with a non-empty `X-Cache-Bypass` header is
forwarded upstream with that header deleted, the response handed back is
the upstream response stamped `X-Cache: BYPASS`, and the cache filesystem
after the request is exactly the one before — nothing is read, written or
expired. -/
theorem claim6_bypass (mode : String) (rules : List CacheRule) (cacheDir : String)
    (ttl now : Int) (rok : Bool) (upstream : Request → Response) (req : Request)
    (fs : Fs) (hb : hGet "X-Cache-Bypass" req.headers ≠ "") :
    engineStep mode rules cacheDir ttl now rok upstream req fs
      = some ⟨{ upstream { req with headers := hDel "X-Cache-Bypass" req.headers } with
                  headers := hSet "X-Cache" "BYPASS"
                    (upstream { req with headers := hDel "X-Cache-Bypass" req.headers }).headers },
               fs, some { req with headers := hDel "X-Cache-Bypass" req.headers }⟩
    ∧ valuesOf "X-Cache-Bypass" (hDel "X-Cache-Bypass" req.headers) = []
    ∧ hGet "X-Cache"
        (hSet "X-Cache" "BYPASS"
          (upstream { req with headers := hDel "X-Cache-Bypass" req.headers }).headers)
        = "BYPASS" := by
  refine ⟨?_, valuesOf_hDel_self _ _, hGet_hSet_self _ _ _⟩
  unfold engineStep
  rw [if_pos hb]

theorem claim6_bypass_witness :
    hGet "X-Cache-Bypass"
        (⟨"http", "origin.test", "/foo", "", "GET", [("X-Cache-Bypass", "1")], none⟩ : Request).headers
      ≠ ""
    ∧ valuesOf "X-Cache-Bypass"
        (hDel "X-Cache-Bypass"
          (⟨"http", "origin.test", "/foo", "", "GET", [("X-Cache-Bypass", "1")], none⟩ : Request).headers)
      = [] :=
  ⟨by decide,
   (claim6_bypass "blacklist" [] "/c" 0 0 true (fun _ => ⟨200, "OK", [], ""⟩)
      ⟨"http", "origin.test", "/foo", "", "GET", [("X-Cache-Bypass", "1")], none⟩ []
      (by decide)).2.1⟩

/-- Claim C2 as amended: on a fresh cache hit that deserializes, the engine
returns the decoded cached response with `X-Cache` set to HIT, leaves the
cache untouched, and short-circuits the upstream fetch (nothing is sent
upstream and the outcome is the same whatever the upstream function); no
`X-Cache-File` header is added — the engine does not produce that header. -/
theorem claim2_amended (mode : String) (rules : List CacheRule) (cacheDir : String)
    (ttl now : Int) (rok : Bool) (up1 up2 : Request → Response) (req : Request)
    (fs : Fs) (e : FsEntry) (cresp : Response)
    (hb : hGet "X-Cache-Bypass" req.headers = "")
    (hk : generateKey req ≠ "")
    (hfs : fsLookup (goJoin [cacheDir, generateKey req]) fs = some e)
    (hfresh : ¬ (ttl ≠ 0 ∧ now - e.mtime > ttl))
    (hde : deserialize e.data = .ok cresp) :
    engineStep mode rules cacheDir ttl now rok up1 req fs
      = some ⟨{ cresp with headers := hSet "X-Cache" "HIT" cresp.headers }, fs, none⟩
    ∧ engineStep mode rules cacheDir ttl now rok up1 req fs
      = engineStep mode rules cacheDir ttl now rok up2 req fs
    ∧ hGet "X-Cache" (hSet "X-Cache" "HIT" cresp.headers) = "HIT"
    ∧ valuesOf "X-Cache-File" (hSet "X-Cache" "HIT" cresp.headers)
      = valuesOf "X-Cache-File" cresp.headers := by
  have main : ∀ up : Request → Response,
      engineStep mode rules cacheDir ttl now rok up req fs
        = some ⟨{ cresp with headers := hSet "X-Cache" "HIT" cresp.headers }, fs, none⟩ := by
    intro up
    simp only [engineStep]
    rw [if_neg (fun hc => hc hb)]
    simp only [getKeyModel, diskGet]
    rw [if_neg hk]
    simp only [hfs]
    rw [if_neg hfresh]
    simp only [hde]
  exact ⟨main up1, (main up1).trans (main up2).symm, hGet_hSet_self _ _ _,
         valuesOf_hSet_ne _ _ _ _ (by decide)⟩

/-! String-suffix lemmas for the host normalization of `GenerateKey`. -/

theorem isPre_append_self (l t : List Char) : isPre l (l ++ t) = true := by
  induction l with
  | nil => rfl
  | cons c cs ih => simp [isPre, ih]

theorem strHasSuf_append_self (h s : String) : strHasSuf (h ++ s) s = true := by
  unfold strHasSuf
  rw [String.data_append, List.reverse_append]
  exact isPre_append_self _ _

theorem strTrimSuf_append (h s : String) : strTrimSuf (h ++ s) s = h := by
  unfold strTrimSuf
  rw [if_pos (strHasSuf_append_self h s), String.data_append, List.length_append,
      Nat.add_sub_cancel, List.take_left]

theorem not_hasSuf_80_of_443 (h : String) : strHasSuf (h ++ ":443") ":80" = false := by
  unfold strHasSuf
  rw [String.data_append, List.reverse_append,
      show (":443" : String).data.reverse = ['3', '4', '4', ':'] from rfl,
      show (":80" : String).data.reverse = ['0', '8', ':'] from rfl]
  simp [isPre]

theorem trimHost_noport (h : String) (h80 : strHasSuf h ":80" = false)
    (h443 : strHasSuf h ":443" = false) :
    strTrimSuf (strTrimSuf h ":80") ":443" = h := by
  have e1 : strTrimSuf h ":80" = h := by
    unfold strTrimSuf; rw [if_neg (by simp [h80])]
  rw [e1]
  unfold strTrimSuf; rw [if_neg (by simp [h443])]

theorem trimHost_443 (h : String) :
    strTrimSuf (strTrimSuf (h ++ ":443") ":80") ":443" = h := by
  have e1 : strTrimSuf (h ++ ":443") ":80" = h ++ ":443" := by
    unfold strTrimSuf; rw [if_neg (by simp [not_hasSuf_80_of_443])]
  rw [e1, strTrimSuf_append]

theorem trimHost_80 (h : String) (h443 : strHasSuf h ":443" = false) :
    strTrimSuf (strTrimSuf (h ++ ":80") ":80") ":443" = h := by
  rw [strTrimSuf_append]
  unfold strTrimSuf; rw [if_neg (by simp [h443])]

/-- Claim C1 as amended: the key is a pure function of the request's host
(with one trailing `:80` or `:443` stripped, not lowercased), path, method,
raw query string, the selected-header string (`Host`, `Accept`,
`Accept-Encoding`, `Accept-Language`, `Content-Type`), and the body:
recomputing on a request that agrees on those yields the identical key, and
a host carrying an explicit `:443` or `:80` keys identically to the bare
host. -/
theorem claim1_amended :
    (∀ r1 r2 : Request, r1.host = r2.host → r1.path = r2.path →
        r1.method = r2.method → r1.rawQuery = r2.rawQuery →
        headersStrOf r1.headers = headersStrOf r2.headers → r1.body = r2.body →
        generateKey r1 = generateKey r2)
    ∧ (∀ (r : Request) (h : String), strHasSuf h ":80" = false →
        strHasSuf h ":443" = false →
        generateKey { r with host := h ++ ":443" } = generateKey { r with host := h }
        ∧ generateKey { r with host := h ++ ":80" } = generateKey { r with host := h }) := by
  constructor
  · intro r1 r2 hh hp hm hq hhd hb
    cases r1; cases r2
    simp only at hh hp hm hq hhd hb
    subst hh; subst hp; subst hm; subst hq; subst hb
    simp only [generateKey, keyFilename]
    rw [hhd]
  · intro r h h80 h443
    constructor
    · simp only [generateKey, keyFilename]
      rw [trimHost_443 h, trimHost_noport h h80 h443]
    · simp only [generateKey, keyFilename]
      rw [trimHost_80 h h443, trimHost_noport h h80 h443]

theorem claim1_amended_witness :
    headersStrOf [("Accept", "a"), ("X-Extra", "b")] = headersStrOf [("Accept", "a")]
    ∧ generateKey ⟨"http", "h.test", "/p", "", "GET", [("Accept", "a"), ("X-Extra", "b")], none⟩
        = generateKey ⟨"https", "h.test", "/p", "", "GET", [("Accept", "a")], none⟩
    ∧ generateKey { (⟨"http", "h.test", "/p", "", "GET", [], none⟩ : Request) with
          host := "h.test" ++ ":443" }
        = generateKey { (⟨"http", "h.test", "/p", "", "GET", [], none⟩ : Request) with
          host := "h.test" } :=
  ⟨by decide,
   claim1_amended.1 _ _ rfl rfl rfl rfl (by decide) rfl,
   (claim1_amended.2 ⟨"http", "h.test", "/p", "", "GET", [], none⟩ "h.test"
      (by decide) (by decide)).1⟩

/-! Length facts about the truncated hashes, for the query-suffix claim. -/

theorem foldl_compress_length (l : List Nat) (p : List Nat) (hs : List Nat)
    (hh : hs.length = 8) :
    (l.foldl (fun hs j => compressBlock hs (blockWords p j)) hs).length = 8 := by
  induction l generalizing hs with
  | nil => exact hh
  | cons j t ih => exact ih _ rfl

theorem foldr_words_length (hs : List Nat) :
    (hs.foldr
      (fun w acc => [w / 2 ^ 24 % 256, w / 2 ^ 16 % 256, w / 2 ^ 8 % 256, w % 256] ++ acc)
      ([] : List Nat)).length = 4 * hs.length := by
  induction hs with
  | nil => rfl
  | cons w t ih =>
    rw [List.foldr_cons]
    simp only [List.length_append, List.length_cons, List.length_nil, ih]
    omega

theorem sha256Bytes_length (m : List Nat) : (sha256Bytes m).length = 32 := by
  simp only [sha256Bytes]
  rw [foldr_words_length, foldl_compress_length _ _ shaH0 rfl]

theorem hexOfBytes_data_length (bs : List Nat) :
    (hexOfBytes bs).data.length = 2 * bs.length := by
  induction bs with
  | nil => rfl
  | cons b t ih => simp [hexOfBytes, List.foldr] at ih ⊢; omega

theorem take8_hex_length (s : String) : (strTake (hexSha256 s) 8).data.length = 8 := by
  unfold strTake hexSha256
  rw [List.length_take, hexOfBytes_data_length, sha256Bytes_length]
  omega

theorem keyFilename_q (r : Request) (hq : r.rawQuery ≠ "") :
    keyFilename r
      = r.method ++ "_q" ++ strTake (hexSha256 r.rawQuery) 8 ++ hbSuffix r ++ ".bin" := by
  simp only [keyFilename, hbSuffix]
  rw [if_pos hq]
  simp [String.append_assoc]

theorem keyFilename_noq (r : Request) (hq : r.rawQuery = "") :
    keyFilename r = r.method ++ hbSuffix r ++ ".bin" := by
  simp only [keyFilename, hbSuffix]
  rw [if_neg (by simp [hq])]
  simp [String.append_assoc]

/-- Claim C9 as amended: the filename carries `_q` followed by the first 8
hex characters of SHA-256 of the raw query exactly when the query is
non-empty — but the base name is the method followed by the optional
`_h`/`_b` header- and body-hash suffixes, not the bare method name — and a
request with a query never keys like the same request without one; two
concrete requests differing only in query (`q=1` versus `q=2` or versus no
query) receive distinct keys. -/
theorem claim9_amended :
    (∀ r : Request, r.rawQuery ≠ "" →
        keyFilename r
          = r.method ++ "_q" ++ strTake (hexSha256 r.rawQuery) 8 ++ hbSuffix r ++ ".bin")
    ∧ (∀ r : Request, r.rawQuery = "" →
        keyFilename r = r.method ++ hbSuffix r ++ ".bin")
    ∧ (∀ (r : Request) (q : String), r.rawQuery = "" → q ≠ "" →
        keyFilename { r with rawQuery := q } ≠ keyFilename r)
    ∧ (generateKey ⟨"http", "origin.test", "/search", "q=1", "GET", [], none⟩
          ≠ generateKey ⟨"http", "origin.test", "/search", "q=2", "GET", [], none⟩
        ∧ generateKey ⟨"http", "origin.test", "/search", "q=1", "GET", [], none⟩
          ≠ generateKey ⟨"http", "origin.test", "/search", "", "GET", [], none⟩) := by
  refine ⟨keyFilename_q, keyFilename_noq, ?_, by decide, by decide⟩
  intro r q hq0 hqne heq
  rw [keyFilename_q { r with rawQuery := q } hqne, keyFilename_noq r hq0] at heq
  have hb : hbSuffix { r with rawQuery := q } = hbSuffix r := rfl
  rw [hb] at heq
  have hlen := congrArg String.length heq
  simp only [String.length_append] at hlen
  rw [show ("_q" : String).length = 2 from rfl,
      show (strTake (hexSha256 q) 8).length = 8 from take8_hex_length q] at hlen
  omega

theorem claim9_amended_witness :
    (⟨"http", "origin.test", "/search", "q=1", "GET", [], none⟩ : Request).rawQuery ≠ ""
    ∧ keyFilename ⟨"http", "origin.test", "/search", "q=1", "GET", [], none⟩
        = "GET" ++ "_q" ++ strTake (hexSha256 "q=1") 8
          ++ hbSuffix ⟨"http", "origin.test", "/search", "q=1", "GET", [], none⟩ ++ ".bin" :=
  ⟨by decide, claim9_amended.1 _ (by decide)⟩

theorem claim2_amended_witness :
    engineStep "blacklist" [] "/cache" 3600 10 true (fun _ => ⟨502, "Bad Gateway", [], ""⟩)
        reqW2 fsW2
      = some ⟨{ crespW2 with headers := hSet "X-Cache" "HIT" crespW2.headers }, fsW2, none⟩ :=
  (claim2_amended "blacklist" [] "/cache" 3600 10 true
      (fun _ => ⟨502, "Bad Gateway", [], ""⟩) (fun _ => ⟨502, "Bad Gateway", [], ""⟩) reqW2 fsW2
      ⟨0, serialize ⟨200, "OK", [("Content-Type", "text/html")], "hello"⟩⟩ crespW2
      (by decide) (by decide) (by decide) (by decide) (by decide)).1

/-! Round-trip infrastructure for the response codec: behaviour of the line
splitters on well-formed wire data, and decimal read-back. -/

theorem splitAtLF_append (xs ys : List Char) (hx : '\n' ∉ xs) :
    splitAtLF (xs ++ '\n' :: ys) = some (xs, ys) := by
  induction xs with
  | nil => simp [splitAtLF]
  | cons c cs ih =>
    have hc : c ≠ '\n' := fun hc => hx (hc ▸ List.mem_cons_self c cs)
    have hcs : '\n' ∉ cs := fun hm => hx (List.mem_cons_of_mem c hm)
    simp [splitAtLF, hc, ih hcs]

theorem splitAtSpace_append (xs ys : List Char) (hx : ' ' ∉ xs) :
    splitAtSpace (xs ++ ' ' :: ys) = some (xs, ys) := by
  induction xs with
  | nil => simp [splitAtSpace]
  | cons c cs ih =>
    have hc : c ≠ ' ' := fun hc => hx (hc ▸ List.mem_cons_self c cs)
    have hcs : ' ' ∉ cs := fun hm => hx (List.mem_cons_of_mem c hm)
    simp [splitAtSpace, hc, ih hcs]

theorem splitAtColon_append (xs ys : List Char) (hx : ':' ∉ xs) :
    splitAtColon (xs ++ ':' :: ys) = some (xs, ys) := by
  induction xs with
  | nil => simp [splitAtColon]
  | cons c cs ih =>
    have hc : c ≠ ':' := fun hc => hx (hc ▸ List.mem_cons_self c cs)
    have hcs : ':' ∉ cs := fun hm => hx (List.mem_cons_of_mem c hm)
    simp [splitAtColon, hc, ih hcs]

theorem dropTrailingCR_concat (xs : List Char) : dropTrailingCR (xs ++ ['\r']) = xs := by
  unfold dropTrailingCR
  rw [List.getLast?_concat, List.dropLast_concat]
  simp

theorem natDigits_acc (fuel : Nat) : ∀ (n : Nat) (acc : List Char),
    natDigits fuel n acc = natDigits fuel n [] ++ acc := by
  induction fuel with
  | zero => intro n acc; rfl
  | succ f ih =>
    intro n acc
    by_cases hn : n < 10
    · simp [natDigits, hn]
    · simp only [natDigits, if_neg hn]
      rw [ih (n / 10) (Char.ofNat (48 + n % 10) :: acc),
          ih (n / 10) [Char.ofNat (48 + n % 10)], List.append_assoc]
      rfl

theorem natDigits_fuel (n : Nat) : ∀ f1 f2 : Nat, n < f1 → n < f2 →
    natDigits f1 n [] = natDigits f2 n [] := by
  induction n using Nat.strong_induction_on with
  | _ n ih =>
    intro f1 f2 h1 h2
    match f1, f2 with
    | g1 + 1, g2 + 1 =>
      by_cases hn : n < 10
      · simp [natDigits, hn]
      · simp only [natDigits, if_neg hn]
        have hdiv : n / 10 < n := Nat.div_lt_self (by omega) (by omega)
        rw [natDigits_acc g1, natDigits_acc g2,
            ih (n / 10) hdiv g1 g2 (by omega) (by omega)]

theorem natToStr_data_ten (n : Nat) (hn : 10 ≤ n) :
    (natToStr n).data = (natToStr (n / 10)).data ++ [Char.ofNat (48 + n % 10)] := by
  show natDigits (n + 1) n [] = natDigits (n / 10 + 1) (n / 10) [] ++ _
  have hdiv : n / 10 < n := Nat.div_lt_self (by omega) (by omega)
  rw [show natDigits (n + 1) n [] = natDigits n (n / 10) [Char.ofNat (48 + n % 10)] by
        simp [natDigits, Nat.not_lt.2 hn],
      natDigits_acc, natDigits_fuel (n / 10) n (n / 10 + 1) (by omega) (by omega)]

theorem natToStr_data_small (n : Nat) (hn : n < 10) :
    (natToStr n).data = [Char.ofNat (48 + n)] := by
  show natDigits (n + 1) n [] = _
  simp [natDigits, hn]

theorem char_digit_toNat (n : Nat) (hn : n < 10) : (Char.ofNat (48 + n)).toNat = 48 + n := by
  interval_cases n <;> decide

theorem natToStr_digits (n : Nat) : ∀ c ∈ (natToStr n).data, isDigitC c = true := by
  induction n using Nat.strong_induction_on with
  | _ n ih =>
    intro c hc
    by_cases hn : n < 10
    · rw [natToStr_data_small n hn] at hc
      simp at hc
      subst hc
      simp [isDigitC, char_digit_toNat n hn]
      omega
    · rw [natToStr_data_ten n (by omega)] at hc
      rcases List.mem_append.1 hc with h | h
      · exact ih (n / 10) (Nat.div_lt_self (by omega) (by omega)) c h
      · simp at h
        subst h
        have h10 : n % 10 < 10 := Nat.mod_lt _ (by omega)
        simp [isDigitC, char_digit_toNat _ h10]
        omega

theorem natToStr_readback (n : Nat) : digitsVal (natToStr n).data = n := by
  induction n using Nat.strong_induction_on with
  | _ n ih =>
    by_cases hn : n < 10
    · rw [natToStr_data_small n hn]
      simp [digitsVal, char_digit_toNat n hn]
    · rw [natToStr_data_ten n (by omega)]
      unfold digitsVal
      rw [List.foldl_append]
      have h10 : n % 10 < 10 := Nat.mod_lt _ (by omega)
      show digitsVal (natToStr (n / 10)).data * 10 + _ = n
      rw [ih (n / 10) (Nat.div_lt_self (by omega) (by omega)), char_digit_toNat _ h10]
      omega

theorem natToStr_data_ne_nil (n : Nat) : (natToStr n).data ≠ [] := by
  by_cases hn : n < 10
  · rw [natToStr_data_small n hn]; simp
  · rw [natToStr_data_ten n (by omega)]; simp

theorem natToStr_length3 (n : Nat) (h1 : 100 ≤ n) (h2 : n ≤ 999) :
    (natToStr n).data.length = 3 := by
  rw [natToStr_data_ten n (by omega), natToStr_data_ten (n / 10) (by omega),
      natToStr_data_small (n / 10 / 10) (by omega)]
  simp

theorem stringMk_data (s : String) : String.mk s.data = s := rfl

theorem isTokenChar_spec (c : Char) (h : isTokenChar c = true) :
    c ≠ ':' ∧ c ≠ '\r' ∧ c ≠ '\n' ∧ c ≠ ' ' := by
  refine ⟨?_, ?_, ?_, ?_⟩ <;> rintro rfl <;> exact absurd h (by decide)

theorem digitC_spec (c : Char) (h : isDigitC c = true) :
    c ≠ '\r' ∧ c ≠ '\n' ∧ c ≠ ' ' ∧ c ≠ ':' := by
  refine ⟨?_, ?_, ?_, ?_⟩ <;> rintro rfl <;> exact absurd h (by decide)

theorem trimLeftSpTab_of_digits (l : List Char) (h : ∀ c ∈ l, isDigitC c = true) :
    trimLeftSpTab l = l := by
  cases l with
  | nil => rfl
  | cons c t =>
    have hd := h c (List.mem_cons_self c t)
    have hsp : c ≠ ' ' := (digitC_spec c hd).2.2.1
    have htab : c ≠ '\t' := by rintro rfl; exact absurd hd (by decide)
    unfold trimLeftSpTab
    rw [List.dropWhile_cons_of_neg (by simp [hsp, htab])]

/-- The header-block reader inverts `headerLines` on well-formed pairs,
canonicalising each name. -/
theorem parseHeaders_append (hs : Headers) : ∀ (fuel : Nat) (acc : Headers) (rest : List Char),
    hs.length < fuel → (∀ p ∈ hs, wireHeaderOk p) →
    parseHeadersAux fuel ((headerLines hs).data ++ '\r' :: '\n' :: rest) acc
      = some (acc.reverse ++ hs.map (fun p => (canonicalKey p.1, p.2)), rest) := by
  induction hs with
  | nil =>
    intro fuel acc rest hf _
    match fuel with
    | f + 1 => simp [headerLines, parseHeadersAux, splitAtLF, dropTrailingCR]
  | cons p t ih =>
    intro fuel acc rest hf hwf
    match fuel with
    | f + 1 =>
      obtain ⟨hk1, hk2, hk3, hv1, hv2⟩ := hwf p (List.mem_cons_self p t)
      have hvnoLF : ∀ c ∈ p.2.data, c ≠ '\n' := fun c hc => (hv1 c hc).2
      have hstream : (headerLines (p :: t)).data ++ '\r' :: '\n' :: rest
          = (p.1.data ++ ':' :: ' ' :: (p.2.data ++ ['\r'])) ++ '\n'
              :: ((headerLines t).data ++ '\r' :: '\n' :: rest) := by
        show (headerLines (p :: t)).data ++ '\r' :: '\n' :: rest = _
        rw [show headerLines (p :: t)
              = p.1 ++ ": " ++ p.2 ++ "\r\n" ++ headerLines t from rfl]
        simp [String.data_append, show (": " : String).data = [':', ' '] from rfl,
              show ("\r\n" : String).data = ['\r', '\n'] from rfl]
      have hnoLF : '\n' ∉ p.1.data ++ ':' :: ' ' :: (p.2.data ++ ['\r']) := by
        intro hm
        rcases List.mem_append.1 hm with h | h
        · exact hk2 h
        · rcases List.mem_cons.1 h with h1 | h
          · exact absurd h1 (by decide)
          · rcases List.mem_cons.1 h with h1 | h
            · exact absurd h1 (by decide)
            · rcases List.mem_append.1 h with h1 | h1
              · exact hvnoLF _ h1 rfl
              · rcases List.mem_singleton.1 h1 with h2
                exact absurd h2 (by decide)
      rw [hstream]
      show parseHeadersAux (f + 1) _ acc = _
      unfold parseHeadersAux
      rw [splitAtLF_append _ _ hnoLF]
      have hline : dropTrailingCR (p.1.data ++ ':' :: ' ' :: (p.2.data ++ ['\r']))
          = p.1.data ++ ':' :: ' ' :: p.2.data := by
        rw [show p.1.data ++ ':' :: ' ' :: (p.2.data ++ ['\r'])
              = (p.1.data ++ ':' :: ' ' :: p.2.data) ++ ['\r'] by simp,
            dropTrailingCR_concat]
      simp only [hline]
      rw [if_neg (by simp : ¬((p.1.data ++ ':' :: ' ' :: p.2.data == []) = true))]
      simp only [show p.1.data ++ ':' :: ' ' :: p.2.data = p.1.data ++ ':' :: (' ' :: p.2.data)
            from rfl,
          splitAtColon_append _ _ hk3]
      rw [if_neg (by simpa using hk1)]
      have htrim : trimLeftSpTab (' ' :: p.2.data) = p.2.data := by
        unfold trimLeftSpTab at hv2 ⊢
        rw [List.dropWhile_cons_of_pos (by decide)]
        exact hv2
      rw [htrim, stringMk_data, stringMk_data]
      rw [ih f ((canonicalKey p.1, p.2) :: acc) rest (by simpa using Nat.lt_of_succ_lt_succ hf)
            (fun q hq => hwf q (List.mem_cons_of_mem p hq))]
      simp

theorem headerLines_length_ge (hs : Headers) :
    hs.length ≤ (headerLines hs).data.length := by
  induction hs with
  | nil => simp
  | cons p t ih =>
    rw [show headerLines (p :: t) = p.1 ++ ": " ++ p.2 ++ "\r\n" ++ headerLines t from rfl]
    simp only [String.data_append, List.length_append, List.length_cons]
    have : (("\r\n" : String)).data.length = 2 := rfl
    omega

theorem valuesOf_eq_nil (k : String) (l : Headers) (h : ∀ p ∈ l, p.1 ≠ k) :
    valuesOf k l = [] := by
  induction l with
  | nil => rfl
  | cons p t ih =>
    rw [valuesOf_cons, if_neg (h p (List.mem_cons_self p t))]
    exact ih (fun q hq => h q (List.mem_cons_of_mem p hq))

/-- `http.ReadResponse` undoes the dump of a well-formed response: same
status code, reason and body, the header pairs name-canonicalised in order,
plus the synthesized `Content-Length` pair in front. -/
theorem readResponse_dump (r : Response)
    (hst1 : 100 ≤ r.statusCode) (hst2 : r.statusCode ≤ 599)
    (hre : ∀ c ∈ r.reason.data, c ≠ '\r' ∧ c ≠ '\n')
    (hhk : ∀ p ∈ r.headers, p.1.data ≠ [] ∧ (∀ c ∈ p.1.data, isTokenChar c = true)
            ∧ excludedNames.contains p.1 = false)
    (hhv : ∀ p ∈ r.headers, (∀ c ∈ p.2.data, c ≠ '\r' ∧ c ≠ '\n')
            ∧ trimLeftSpTab p.2.data = p.2.data)
    (hncl : ∀ p ∈ r.headers, canonicalKey p.1 ≠ "Content-Length") :
    readResponse (dumpResponse r)
      = some ⟨r.statusCode, r.reason,
              ("Content-Length", natToStr r.body.length)
                :: r.headers.map (fun p => (canonicalKey p.1, p.2)), r.body⟩ := by
  have hfilter : r.headers.filter (fun p => !excludedNames.contains p.1) = r.headers :=
    List.filter_eq_self.2 (fun p hp => by simpa using (hhk p hp).2.2)
  have hcdD := natToStr_digits r.statusCode
  have hclD := natToStr_digits r.body.length
  have hd : (dumpResponse r).data
      = ((['H', 'T', 'T', 'P', '/', '1', '.', '1']
            ++ ' ' :: ((natToStr r.statusCode).data ++ ' ' :: r.reason.data)) ++ ['\r'])
          ++ '\n'
          :: ((headerLines (("Content-Length", natToStr r.body.length) :: r.headers)).data
              ++ '\r' :: '\n' :: r.body.data) := by
    simp only [dumpResponse, hfilter]
    rw [show headerLines (("Content-Length", natToStr r.body.length) :: r.headers)
          = "Content-Length" ++ ": " ++ natToStr r.body.length ++ "\r\n" ++ headerLines r.headers
          from rfl]
    simp [String.data_append,
          show ("HTTP/1.1 " : String).data
              = ['H', 'T', 'T', 'P', '/', '1', '.', '1', ' '] from rfl,
          show (" " : String).data = [' '] from rfl,
          show ("\r\n" : String).data = ['\r', '\n'] from rfl,
          show (": " : String).data = [':', ' '] from rfl,
          show ("Content-Length: " : String).data
              = ['C', 'o', 'n', 't', 'e', 'n', 't', '-', 'L', 'e', 'n', 'g', 't', 'h', ':', ' ']
              from rfl,
          show ("Content-Length" : String).data
              = ['C', 'o', 'n', 't', 'e', 'n', 't', '-', 'L', 'e', 'n', 'g', 't', 'h'] from rfl]
  have hnoLF : '\n' ∉ ['H', 'T', 'T', 'P', '/', '1', '.', '1']
      ++ ' ' :: ((natToStr r.statusCode).data ++ ' ' :: r.reason.data) := by
    intro hm
    rcases List.mem_append.1 hm with h | h
    · exact absurd h (by decide)
    · rcases List.mem_cons.1 h with h | h
      · exact absurd h (by decide)
      · rcases List.mem_append.1 h with h | h
        · exact (digitC_spec _ (hcdD _ h)).2.1 rfl
        · rcases List.mem_cons.1 h with h | h
          · exact absurd h (by decide)
          · exact (hre _ h).2 rfl
  simp only [readResponse, hd]
  rw [show (((['H', 'T', 'T', 'P', '/', '1', '.', '1']
          ++ ' ' :: ((natToStr r.statusCode).data ++ ' ' :: r.reason.data)) ++ ['\r'])
        ++ '\n'
        :: ((headerLines (("Content-Length", natToStr r.body.length) :: r.headers)).data
            ++ '\r' :: '\n' :: r.body.data))
      = ((['H', 'T', 'T', 'P', '/', '1', '.', '1']
          ++ ' ' :: ((natToStr r.statusCode).data ++ ' ' :: r.reason.data)) ++ ['\r'])
        ++ '\n'
        :: ((headerLines (("Content-Length", natToStr r.body.length) :: r.headers)).data
            ++ '\r' :: '\n' :: r.body.data) from rfl,
    splitAtLF_append _ _ (by
      intro hm
      rcases List.mem_append.1 hm with h | h
      · exact hnoLF h
      · exact absurd (List.mem_singleton.1 h) (by decide))]
  simp only [dropTrailingCR_concat]
  rw [show ['H', 'T', 'T', 'P', '/', '1', '.', '1']
        ++ ' ' :: ((natToStr r.statusCode).data ++ ' ' :: r.reason.data)
      = ['H', 'T', 'T', 'P', '/', '1', '.', '1']
        ++ ' ' :: ((natToStr r.statusCode).data ++ ' ' :: r.reason.data) from rfl,
    splitAtSpace_append _ _ (by decide)]
  simp only []
  rw [if_neg (by
    intro hcon
    exact hcon.1 (by decide))]
  rw [splitAtSpace_append _ _ (fun h => (digitC_spec _ (hcdD _ h)).2.2.1 rfl)]
  simp only []
  have hlen3 : (natToStr r.statusCode).data.length = 3 :=
    natToStr_length3 r.statusCode hst1 (by omega)
  have hallD : (natToStr r.statusCode).data.all isDigitC = true :=
    List.all_eq_true.2 (fun c hc => hcdD c hc)
  rw [if_neg (by
    intro hcon
    rcases hcon with h | h
    · exact h hlen3
    · exact h hallD)]
  have hfuel : (("Content-Length", natToStr r.body.length) :: r.headers).length
      < ((headerLines (("Content-Length", natToStr r.body.length) :: r.headers)).data
          ++ '\r' :: '\n' :: r.body.data).length + 1 := by
    have hge := headerLines_length_ge (("Content-Length", natToStr r.body.length) :: r.headers)
    simp only [List.length_append, List.length_cons] at hge ⊢
    omega
  have hwf : ∀ p ∈ ("Content-Length", natToStr r.body.length) :: r.headers, wireHeaderOk p := by
    intro p hp
    rcases List.mem_cons.1 hp with h | h
    · rw [h]
      refine ⟨?_, ?_, ?_, ?_, ?_⟩
      · show ("Content-Length" : String).data ≠ []
        decide
      · show '\n' ∉ ("Content-Length" : String).data
        decide
      · show ':' ∉ ("Content-Length" : String).data
        decide
      · show ∀ c ∈ (natToStr r.body.length).data, c ≠ '\r' ∧ c ≠ '\n'
        exact fun c hc => ⟨(digitC_spec _ (hclD _ hc)).1, (digitC_spec _ (hclD _ hc)).2.1⟩
      · show trimLeftSpTab (natToStr r.body.length).data = (natToStr r.body.length).data
        exact trimLeftSpTab_of_digits _ hclD
    · obtain ⟨hk1, hk2, _⟩ := hhk p h
      obtain ⟨hv1, hv2⟩ := hhv p h
      exact ⟨hk1, fun hm => (isTokenChar_spec _ (hk2 _ hm)).2.2.1 rfl,
             fun hm => (isTokenChar_spec _ (hk2 _ hm)).1 rfl, hv1, hv2⟩
  rw [parseHeaders_append _ _ [] _ hfuel hwf]
  simp only [List.reverse_nil, List.nil_append, List.map_cons]
  have hcanonCL : canonicalKey "Content-Length" = "Content-Length" := by decide
  rw [hcanonCL]
  have hvals : valuesOf "Content-Length"
      (("Content-Length", natToStr r.body.length)
        :: r.headers.map (fun p => (canonicalKey p.1, p.2)))
      = [natToStr r.body.length] := by
    rw [valuesOf_cons, if_pos rfl,
        valuesOf_eq_nil _ _ (by
          intro q hq
          rcases List.mem_map.1 hq with ⟨p, hp, hpq⟩
          rw [← hpq]
          exact hncl p hp)]
  simp only [hvals]
  rw [if_neg (fun hcon : natToStr r.body.length = "" =>
    natToStr_data_ne_nil r.body.length (by rw [hcon]))]
  have hallCL : (natToStr r.body.length).data.all isDigitC = true :=
    List.all_eq_true.2 (fun c hc => hclD c hc)
  rw [if_neg (by
    intro hcon
    exact hcon hallCL)]
  have hread : digitsVal (natToStr r.body.length).data = r.body.length :=
    natToStr_readback r.body.length
  rw [if_neg (by
    rw [hread, show r.body.length = r.body.data.length from rfl]
    omega)]
  rw [hread]
  have htake : r.body.data.take r.body.length = r.body.data := by
    rw [show r.body.length = r.body.data.length from rfl]
    exact List.take_length _
  rw [htake]
  rw [natToStr_readback r.statusCode]

theorem map_canonical_id (l : Headers) (h : ∀ p ∈ l, canonicalKey p.1 = p.1) :
    l.map (fun p => (canonicalKey p.1, p.2)) = l := by
  induction l with
  | nil => rfl
  | cons p t ih =>
    rw [List.map_cons, h p (List.mem_cons_self p t),
        ih (fun q hq => h q (List.mem_cons_of_mem p hq))]

/-- Claim C7 as amended: serializing and deserializing a response whose
status allows a body, whose reason phrase is CR/LF-free, and whose header
pairs carry non-empty canonical-form token names (none of them
Content-Length, Transfer-Encoding or Trailer) with CR/LF-free values that
have no leading blank, reproduces the status line, the body bytes, and the
header multimap with per-name order intact; the read-back header map
additionally gains the synthesized Content-Length entry in front. -/
theorem claim7_roundtrip (r : Response)
    (hst1 : 100 ≤ r.statusCode) (hst2 : r.statusCode ≤ 599)
    (_hallow : ¬ (r.statusCode < 200 ∨ r.statusCode = 204 ∨ r.statusCode = 304))
    (_hbody : r.body.length < 104857600)
    (hre : ∀ c ∈ r.reason.data, c ≠ '\r' ∧ c ≠ '\n')
    (hh : ∀ p ∈ r.headers, p.1.data ≠ [] ∧ (∀ c ∈ p.1.data, isTokenChar c = true)
            ∧ canonicalKey p.1 = p.1
            ∧ excludedNames.contains p.1 = false
            ∧ (∀ c ∈ p.2.data, c ≠ '\r' ∧ c ≠ '\n')
            ∧ trimLeftSpTab p.2.data = p.2.data) :
    deserialize (serialize r)
      = .ok ⟨r.statusCode, r.reason,
             ("Content-Length", natToStr r.body.length) :: r.headers, r.body⟩
    ∧ (∀ k : String, k ≠ "Content-Length" →
        valuesOf k (("Content-Length", natToStr r.body.length) :: r.headers)
          = valuesOf k r.headers)
    ∧ valuesOf "Content-Length"
        (("Content-Length", natToStr r.body.length) :: r.headers)
        = [natToStr r.body.length] := by
  have hncl : ∀ p ∈ r.headers, canonicalKey p.1 ≠ "Content-Length" := by
    intro p hp hc
    have hkey := (hh p hp).2.2.1
    rw [hkey] at hc
    have hex := (hh p hp).2.2.2.1
    rw [hc] at hex
    exact absurd hex (by decide)
  have hrd := readResponse_dump r hst1 hst2 hre
    (fun p hp => ⟨(hh p hp).1, (hh p hp).2.1, (hh p hp).2.2.2.1⟩)
    (fun p hp => ⟨(hh p hp).2.2.2.2.1, (hh p hp).2.2.2.2.2⟩)
    hncl
  have hmap := map_canonical_id r.headers (fun p hp => (hh p hp).2.2.1)
  rw [hmap] at hrd
  refine ⟨?_, ?_, ?_⟩
  · simp only [serialize, deserialize, String.data_append]
    rw [List.take_left,
        show PREFIX.data.length - (PREFIX.data ++ (dumpResponse r).data).length = 0 from by
          rw [List.length_append]; omega,
        List.replicate_zero, List.append_nil, stringMk_data]
    rw [if_neg (fun hcon => hcon rfl)]
    rw [List.drop_left, stringMk_data, hrd]
  · intro k hk
    rw [valuesOf_cons, if_neg (fun hc => hk hc.symm)]
  · rw [valuesOf_cons, if_pos rfl,
        valuesOf_eq_nil "Content-Length" r.headers
          (fun q hq hc => hncl q hq (((hh q hq).2.2.1).trans hc))]

theorem claim7_roundtrip_witness :
    deserialize (serialize ⟨200, "OK", [("Content-Type", "text/html")], "hello"⟩)
      = .ok ⟨200, "OK",
             [("Content-Length", natToStr ("hello" : String).length),
              ("Content-Type", "text/html")], "hello"⟩ :=
  (claim7_roundtrip ⟨200, "OK", [("Content-Type", "text/html")], "hello"⟩
    (by decide) (by decide) (by decide) (by decide) (by decide) (by decide)).1

end CDP
